import Mathlib

/-!
# Verification of the voxels nd-data codec (pydvid)

Shallow embedding of `src/pydvid/voxels/voxels_nddata_codec.py`.

The codec moves raw bytes between an N-dimensional array and a byte
stream.  We model byte buffers as `List Nat` (each entry one byte),
streams as explicit state passed through `read`/`write`, and Python
exceptions as an `Except Err` result.  Machine integers that can
overflow (`numpy.prod` computes in int64) are modelled as `Int` with an
explicit wrap at 2^64 into the signed range.
-/

/-- The Python exception kinds the codec can raise, under the names the
design documentation gives them.
* `typeMismatch` — the `assert array.dtype == self._voxels_metadata.dtype`
  in `_get_buffer` (an `AssertionError` in Python);
* `truncatedStream` — a chunk read returned a byte string whose length
  differs from the requested chunk size, so the buffer slice assignment
  `buf[chunk_start:chunk_stop] = stream.read(...)` fails (a `ValueError`
  in Python);
* `useAfterClose` — the `assert self._buffer is not None` guarding
  `EncodedStream._read` (an `AssertionError` in Python);
* `noneTypeError` — `EncodedStream._read` evaluated
  `stop = self._position + nbytes` while `nbytes` was still `None`
  (a `TypeError` in Python). -/
inductive Err where
  | typeMismatch
  | truncatedStream
  | useAfterClose
  | noneTypeError
deriving DecidableEq, Repr

/-- Modelled from the spec: the metadata collaborator (`VoxelsMetadata`,
not part of this repository) exposes an element type, a closed
enumeration of fixed-width numeric kinds.  Only its identity (for the
dtype equality check) and its byte width `nbytes` are used by the
codec. -/
inductive DType where
  | uint8 | uint16 | uint32 | uint64
  | int8 | int16 | int32 | int64
deriving DecidableEq, Repr

/-- `dtype.type().nbytes`: the element byte width of a dtype. -/
def DType.nbytes : DType → Nat
  | .uint8 => 1 | .uint16 => 2 | .uint32 => 4 | .uint64 => 8
  | .int8 => 1 | .int16 => 2 | .int32 => 4 | .int64 => 8

/-- Wrap an integer into the signed 64-bit range, the way numpy's int64
arithmetic silently overflows. -/
def int64wrap (n : Int) : Int :=
  (n + 2 ^ 63) % 2 ^ 64 - 2 ^ 63

/-- `numpy.prod(shape)`: the product of the extents, computed by
`multiply.reduce` in int64, wrapping silently on overflow at every
step.  (Extents that do not fit in int64 at all are outside this model:
numpy would refuse to convert them.) -/
def numpyProdInt64 (shape : List Nat) : Int :=
  shape.foldl (fun (acc : Int) (x : Nat) => int64wrap (acc * (x : Int))) 1

/-- A `Volume`: an N-dimensional numpy array.  Its logical content is
recorded as `cdata`, the sequence of its raw bytes when enumerated in
canonical (first-axis-fastest / Fortran) index order.  `f_contiguous`
is the array's `F_CONTIGUOUS` flag: when it is true the array's actual
memory *is* `cdata`, so `numpy.getbuffer` on the array yields exactly
`cdata`; when it is false the memory is laid out in some other order
and only a canonicalizing copy exposes `cdata` as a flat buffer. -/
structure Volume where
  dtype : DType
  shape : List Nat
  cdata : List Nat
  f_contiguous : Bool
deriving DecidableEq, Repr

namespace VoxelsNddataCodec

/-- `STREAM_CHUNK_SIZE = 1000`: data moves to/from streams in chunks. -/
def STREAM_CHUNK_SIZE : Nat := 1000

/-- `calculate_buffer_len(self, shape)`:
`numpy.prod(shape) * self._voxels_metadata.dtype.type().nbytes`.
The product is int64 arithmetic (wrapping), and the final
multiplication by the element width is as well. -/
def calculate_buffer_len (dtype : DType) (shape : List Nat) : Int :=
  int64wrap (numpyProdInt64 shape * (dtype.nbytes : Int))

/-- `_get_buffer(self, array)`.  Checks the dtype against the codec's
configured dtype (`assert array.dtype == self._voxels_metadata.dtype`),
then obtains a flat buffer of the array's bytes in canonical order:
directly via `numpy.getbuffer(array)` when the array is F_CONTIGUOUS,
otherwise by first copying into a fresh F-ordered array
(`array_copy = numpy.empty_like(array, order='F'); array_copy[:] = array[:]`)
— the copy has the same logical content, so its raw memory is again
`cdata`.  The returned `Bool` records which branch ran: `true` iff the
canonicalizing copy was made (the buffer is owned by the copy rather
than borrowed from the caller's array). -/
def _get_buffer (codec_dtype : DType) (array : Volume) : Except Err (List Nat × Bool) :=
  if array.dtype ≠ codec_dtype then
    .error .typeMismatch
  else if array.f_contiguous then
    .ok (array.cdata, false)
  else
    .ok (array.cdata, true)

/-- Python slice `buf[start : start + len]` for natural indices:
used for the chunk arithmetic of `_send_from_buffer`, where
`0 ≤ start ≤ stop ≤ len(buf)` always holds. -/
def sliceN (buf : List Nat) (start stop : Nat) : List Nat :=
  (buf.drop start).take (stop - start)

/-- The loop body of `_send_from_buffer`, recursing on
`remaining_bytes`.  Each iteration writes the slice
`buf[chunk_start:chunk_stop]` to the stream; we return the list of
written chunks in order.  The inner `chunk = 0` branch is unreachable
when the chunk size is positive; it only serves termination. -/
def _send_from_buffer_loop (chunk_size : Nat) (buf : List Nat)
    (remaining_bytes : Nat) : List (List Nat) :=
  if remaining_bytes = 0 then []
  else
    let next_chunk_bytes := min remaining_bytes chunk_size
    if h : next_chunk_bytes = 0 then []
    else
      let chunk_start := buf.length - remaining_bytes
      let chunk_stop := buf.length - (remaining_bytes - next_chunk_bytes)
      sliceN buf chunk_start chunk_stop ::
        _send_from_buffer_loop chunk_size buf (remaining_bytes - next_chunk_bytes)
termination_by remaining_bytes
decreasing_by
  simp only [next_chunk_bytes] at h ⊢
  omega

/-- `_send_from_buffer(cls, buf, stream)`: write the buffer to the
stream in chunks.  The result is the sequence of `stream.write` calls
performed, in order.  The chunk size is the class constant
`STREAM_CHUNK_SIZE` at every call site; it is a parameter here so the
chunking can be stated for any configured size. -/
def _send_from_buffer (chunk_size : Nat) (buf : List Nat) : List (List Nat) :=
  _send_from_buffer_loop chunk_size buf buf.length

/-- The sizes `min(remaining, chunk_size)` that the transfer loops
request, from `remaining_bytes = L` down to `0`. -/
def chunkSizes (chunk_size : Nat) (remaining_bytes : Nat) : List Nat :=
  if remaining_bytes = 0 then []
  else
    let next_chunk_bytes := min remaining_bytes chunk_size
    if h : next_chunk_bytes = 0 then []
    else next_chunk_bytes :: chunkSizes chunk_size (remaining_bytes - next_chunk_bytes)
termination_by remaining_bytes
decreasing_by
  simp only [next_chunk_bytes] at h ⊢
  omega

/-- `_read_to_buffer(cls, buf, stream)`: fill a buffer of
`remaining_bytes` bytes from the stream in chunks.  Each iteration runs
`buf[chunk_start:chunk_stop] = stream.read(next_chunk_bytes)`; the
slice assignment demands a byte string of exactly the slice's length,
so a read returning any other number of bytes raises (modelled
`.truncatedStream`).  The filled buffer is the concatenation of the
chunks in order (the slices are contiguous: `chunk_start` resumes where
the previous `chunk_stop` ended).  The stream is any object with a
`read`; it is threaded through explicitly as a state `s : σ`. -/
def _read_to_buffer {σ : Type} (chunk_size : Nat) (read : Nat → σ → List Nat × σ)
    (remaining_bytes : Nat) (stream : σ) : Except Err (List Nat × σ) :=
  if remaining_bytes = 0 then .ok ([], stream)
  else
    let next_chunk_bytes := min remaining_bytes chunk_size
    if h : next_chunk_bytes = 0 then .ok ([], stream)
    else
      let r := read next_chunk_bytes stream
      if r.1.length ≠ next_chunk_bytes then .error .truncatedStream
      else
        match _read_to_buffer chunk_size read (remaining_bytes - next_chunk_bytes) r.2 with
        | .error e => .error e
        | .ok (rest, s) => .ok (r.1 ++ rest, s)
termination_by remaining_bytes
decreasing_by
  simp only [next_chunk_bytes] at h ⊢
  omega

/-- `encode_from_ndarray(self, stream, array)`: obtain the array's
buffer (`_get_buffer`) and send it to the stream
(`_send_from_buffer`).  The result, when no exception is raised, is the
sequence of writes made to the stream; on error nothing has been
written (the dtype assertion fires before any byte moves). -/
def encode_from_ndarray (codec_dtype : DType) (array : Volume) :
    Except Err (List (List Nat)) :=
  match _get_buffer codec_dtype array with
  | .error e => .error e
  | .ok (buf, _) => .ok (_send_from_buffer STREAM_CHUNK_SIZE buf)

/-- `decode_to_ndarray(self, stream, full_roi_shape)`: allocate a fresh
array of the given shape and the codec's dtype in Fortran order, and
fill its buffer from the stream (`_read_to_buffer`); the buffer length
is `len(numpy.getbuffer(array)) = prod(full_roi_shape) * nbytes`.
The decoded array is F-contiguous and its canonical-order bytes are
exactly the bytes read. -/
def decode_to_ndarray {σ : Type} (codec_dtype : DType) (read : Nat → σ → List Nat × σ)
    (stream : σ) (full_roi_shape : List Nat) : Except Err (Volume × σ) :=
  match _read_to_buffer STREAM_CHUNK_SIZE read
      (full_roi_shape.prod * codec_dtype.nbytes) stream with
  | .error e => .error e
  | .ok (buf, s) =>
    .ok ({ dtype := codec_dtype, shape := full_roi_shape,
           cdata := buf, f_contiguous := true }, s)

end VoxelsNddataCodec

/-- An in-memory byte stream over a byte string, as produced by wrapping
the encoder's output (the spec's `stream_from`): `read n` yields the
next `min n remaining` bytes and advances by that many. -/
structure ByteStream where
  data : List Nat
  pos : Nat
deriving DecidableEq, Repr

/-- `read(n)` on the in-memory byte stream. -/
def ByteStream.read (n : Nat) (s : ByteStream) : List Nat × ByteStream :=
  let r := (s.data.drop s.pos).take n
  (r, { s with pos := s.pos + r.length })

/-- Python 2 slice `buf[start:stop]` on a buffer object, for arbitrary
integer indices: a negative index has the length added once, then both
indices are clamped to `[0, length]` and an inverted range is empty. -/
def pySlice (buf : List Nat) (start stop : Int) : List Nat :=
  let L : Int := buf.length
  let i := if start < 0 then start + L else start
  let j := if stop < 0 then stop + L else stop
  let i := min (max i 0) L
  let j := min (max j 0) L
  (buf.drop i.toNat).take (j.toNat - i.toNat)

namespace VoxelsNddataCodec

/-- `VoxelsNddataCodec.EncodedStream`: the in-memory stream view over an
encoded buffer.  `buffer` is `none` once `close()` has set
`self._buffer = None`; `position` is the cursor, an arbitrary integer
because `seek` stores whatever it is given. -/
structure EncodedStream where
  buffer : Option (List Nat)
  position : Int
deriving DecidableEq, Repr

namespace EncodedStream

/-- `__init__(self, buf)` (the constructor asserts `buf is not None`). -/
def mk' (buf : List Nat) : EncodedStream :=
  { buffer := some buf, position := 0 }

/-- `seek(self, pos)`: stores the position unvalidated. -/
def seek (s : EncodedStream) (pos : Int) : EncodedStream :=
  { s with position := pos }

/-- `tell(self)`. -/
def tell (s : EncodedStream) : Int :=
  s.position

/-- `close(self)`: `self._buffer = None`. -/
def close (s : EncodedStream) : EncodedStream :=
  { s with buffer := none }

/-- `closed(self)`: `self._buffer is None`. -/
def closed (s : EncodedStream) : Bool :=
  s.buffer.isNone

/-- `_read(self, nbytes=None, peeking=False)`.  Mirrors the source line
by line: the assertion that the stream is open; clamping `nbytes` to
the remaining byte count when it was given; then
`stop = self._position + nbytes` — which, when `nbytes` was omitted, is
an addition of `None` to an integer and raises a `TypeError`
(`.noneTypeError`); the slice `self._buffer[start:stop]`; and the
cursor advance, skipped when peeking. -/
def _read (s : EncodedStream) (nbytes : Option Int) (peeking : Bool) :
    Except Err (List Nat × EncodedStream) :=
  match s.buffer with
  | none => .error .useAfterClose
  | some buf =>
    let remaining_bytes : Int := (buf.length : Int) - s.position
    let nbytes := match nbytes with
      | some n => some (min remaining_bytes n)
      | none => none
    match nbytes with
    | none => .error .noneTypeError
    | some nbytes =>
      let start := s.position
      let stop := s.position + nbytes
      let encoded_data := pySlice buf start stop
      if peeking then .ok (encoded_data, s)
      else .ok (encoded_data, { s with position := s.position + nbytes })

/-- `read(self, nbytes=None)`. -/
def read (s : EncodedStream) (nbytes : Option Int) :
    Except Err (List Nat × EncodedStream) :=
  s._read nbytes false

/-- `peek(self, nbytes)`. -/
def peek (s : EncodedStream) (nbytes : Int) :
    Except Err (List Nat × EncodedStream) :=
  s._read (some nbytes) true

/-- `getvalue(self)`: save the cursor, `self.read()`, restore the
cursor.  When `read` raises, the exception propagates before the
cursor is restored (but also before it was moved). -/
def getvalue (s : EncodedStream) : Except Err (List Nat × EncodedStream) :=
  let pos := s.position
  match s.read none with
  | .error e => .error e
  | .ok (data, s') => .ok (data, { s' with position := pos })

/-- The operations a client can invoke on an `EncodedStream`. -/
inductive Op where
  | read (nbytes : Option Int)
  | peek (nbytes : Int)
  | getvalue
  | seek (pos : Int)
  | tell
  | close
deriving DecidableEq, Repr

/-- Run one operation for its state effect.  An operation that raises
leaves the state as it was (every failure in `_read`/`getvalue` occurs
before any field is mutated). -/
def execOp (s : EncodedStream) : Op → EncodedStream
  | .read n => match s.read n with
    | .ok (_, s') => s'
    | .error _ => s
  | .peek n => match s.peek n with
    | .ok (_, s') => s'
    | .error _ => s
  | .getvalue => match s.getvalue with
    | .ok (_, s') => s'
    | .error _ => s
  | .seek p => s.seek p
  | .tell => s
  | .close => s.close

/-- Run a sequence of operations from a state. -/
def execTrace (s : EncodedStream) (ops : List Op) : EncodedStream :=
  ops.foldl execOp s

end EncodedStream

/-- `create_encoded_stream_from_ndarray(self, array)`: normalize the
array to a buffer and wrap it in an `EncodedStream`. -/
def create_encoded_stream_from_ndarray (codec_dtype : DType) (array : Volume) :
    Except Err EncodedStream :=
  match _get_buffer codec_dtype array with
  | .error e => .error e
  | .ok (buf, _) => .ok (EncodedStream.mk' buf)

end VoxelsNddataCodec

namespace VoxelsNddataCodec

/-- The writes of the send loop, concatenated, reproduce exactly the
suffix of the buffer that remained to be sent. -/
theorem _send_from_buffer_loop_flatten (chunk_size : Nat) (hC : 0 < chunk_size)
    (buf : List Nat) :
    ∀ remaining_bytes, remaining_bytes ≤ buf.length →
      (_send_from_buffer_loop chunk_size buf remaining_bytes).flatten
        = buf.drop (buf.length - remaining_bytes) := by
  intro remaining_bytes
  induction remaining_bytes using Nat.strongRecOn with
  | ind remaining IH =>
    intro hle
    unfold _send_from_buffer_loop
    by_cases h0 : remaining = 0
    · subst h0
      simp
    · rw [if_neg h0]
      have hchunk : ¬ (min remaining chunk_size = 0) := by omega
      simp only [hchunk, reduceDIte, List.flatten_cons]
      rw [IH (remaining - min remaining chunk_size) (by omega) (by omega)]
      have harith : buf.length - (remaining - min remaining chunk_size)
          = (buf.length - remaining) + min remaining chunk_size := by omega
      rw [harith, sliceN, ← List.drop_drop]
      have htake : buf.length - (remaining - min remaining chunk_size)
            - (buf.length - remaining) = min remaining chunk_size := by omega
      rw [harith] at htake
      rw [htake, List.take_append_drop]

/-- Each write of the send loop has the size the loop requested:
`min(remaining, chunk_size)` at every step. -/
theorem _send_from_buffer_loop_sizes (chunk_size : Nat) (buf : List Nat) :
    ∀ remaining_bytes, remaining_bytes ≤ buf.length →
      (_send_from_buffer_loop chunk_size buf remaining_bytes).map List.length
        = chunkSizes chunk_size remaining_bytes := by
  intro remaining_bytes
  induction remaining_bytes using Nat.strongRecOn with
  | ind remaining IH =>
    intro hle
    unfold _send_from_buffer_loop chunkSizes
    by_cases h0 : remaining = 0
    · subst h0
      simp
    · rw [if_neg h0, if_neg h0]
      by_cases hchunk : min remaining chunk_size = 0
      · simp only [hchunk, reduceDIte]
        simp
      · simp only [hchunk, reduceDIte, List.map_cons]
        rw [IH (remaining - min remaining chunk_size) (by omega) (by omega)]
        have hlen : (sliceN buf (buf.length - remaining)
            (buf.length - (remaining - min remaining chunk_size))).length
            = min remaining chunk_size := by
          rw [sliceN]
          simp only [List.length_take, List.length_drop]
          omega
        rw [hlen]

/-- Splitting a `take` of a sum into two contiguous pieces. -/
theorem take_add_split {α : Type} (m n : Nat) :
    ∀ l : List α, l.take (m + n) = l.take m ++ (l.drop m).take n := by
  induction m with
  | zero => intro l; simp
  | succ m IH =>
    intro l
    cases l with
    | nil => simp
    | cons a l =>
      simp only [List.take_succ_cons, List.drop_succ_cons, List.cons_append,
        Nat.succ_add]
      rw [IH l]

/-- When the stream holds at least `remaining_bytes` bytes past its
cursor, the fill loop succeeds, returns exactly the next
`remaining_bytes` bytes, and leaves the cursor advanced by that
amount. -/
theorem _read_to_buffer_exact (chunk_size : Nat) (hC : 0 < chunk_size) :
    ∀ remaining_bytes (s : ByteStream),
      s.pos + remaining_bytes ≤ s.data.length →
      _read_to_buffer chunk_size ByteStream.read remaining_bytes s
        = .ok ((s.data.drop s.pos).take remaining_bytes,
               { data := s.data, pos := s.pos + remaining_bytes }) := by
  intro remaining_bytes
  induction remaining_bytes using Nat.strongRecOn with
  | ind remaining IH =>
    intro s hle
    unfold _read_to_buffer
    by_cases h0 : remaining = 0
    · subst h0
      simp
    · rw [if_neg h0]
      have hchunk : ¬ (min remaining chunk_size = 0) := by omega
      simp only [hchunk, reduceDIte]
      have hlen : ((ByteStream.read (min remaining chunk_size) s).1).length
          = min remaining chunk_size := by
        simp only [ByteStream.read, List.length_take, List.length_drop]
        omega
      simp only [ByteStream.read] at hlen ⊢
      rw [if_neg (by omega)]
      rw [IH (remaining - min remaining chunk_size) (by omega)
        { data := s.data, pos := s.pos + ((s.data.drop s.pos).take (min remaining chunk_size)).length }
        (by simp only [List.length_take, List.length_drop]; omega)]
      simp only [List.length_take, List.length_drop]
      have h1 : min (min remaining chunk_size) (s.data.length - s.pos)
          = min remaining chunk_size := by omega
      rw [h1]
      have h2 : s.pos + min remaining chunk_size + (remaining - min remaining chunk_size)
          = s.pos + remaining := by omega
      rw [h2, ← List.drop_drop]
      have h3 : remaining = min remaining chunk_size + (remaining - min remaining chunk_size) := by
        omega
      conv_rhs => rw [h3, take_add_split]
      have h4 : min remaining chunk_size + (remaining - min remaining chunk_size)
          = remaining := by omega
      rw [h4]

/-- When the stream holds fewer than `remaining_bytes` bytes past its
cursor, the fill loop hits a chunk read that returns fewer bytes than
requested and fails. -/
theorem _read_to_buffer_short (chunk_size : Nat) (hC : 0 < chunk_size) :
    ∀ remaining_bytes (s : ByteStream),
      s.pos ≤ s.data.length →
      s.data.length < s.pos + remaining_bytes →
      _read_to_buffer chunk_size ByteStream.read remaining_bytes s
        = .error .truncatedStream := by
  intro remaining_bytes
  induction remaining_bytes using Nat.strongRecOn with
  | ind remaining IH =>
    intro s hpos hshort
    unfold _read_to_buffer
    have h0 : ¬ (remaining = 0) := by omega
    rw [if_neg h0]
    have hchunk : ¬ (min remaining chunk_size = 0) := by omega
    simp only [hchunk, reduceDIte, ByteStream.read]
    by_cases havail : s.data.length - s.pos < min remaining chunk_size
    · rw [if_pos (by simp only [List.length_take, List.length_drop]; omega)]
    · rw [if_neg (by simp only [List.length_take, List.length_drop]; omega)]
      rw [IH (remaining - min remaining chunk_size) (by omega)
        { data := s.data, pos := s.pos + ((s.data.drop s.pos).take (min remaining chunk_size)).length }
        (by simp only [List.length_take, List.length_drop]; omega)
        (by simp only [List.length_take, List.length_drop]; omega)]

/-- Any single chunk read that returns fewer bytes than the loop
requested makes the fill loop fail at once. -/
theorem _read_to_buffer_short_read {σ : Type} (chunk_size : Nat)
    (read : Nat → σ → List Nat × σ) (remaining_bytes : Nat) (s : σ)
    (h0 : 0 < remaining_bytes)
    (hshort : (read (min remaining_bytes chunk_size) s).1.length
        < min remaining_bytes chunk_size) :
    _read_to_buffer chunk_size read remaining_bytes s = .error .truncatedStream := by
  unfold _read_to_buffer
  rw [if_neg (by omega)]
  have hchunk : ¬ (min remaining_bytes chunk_size = 0) := by omega
  simp only [hchunk, reduceDIte]
  rw [if_pos (by omega)]

end VoxelsNddataCodec

/-- Every dtype has a positive element byte width. -/
theorem DType.one_le_nbytes (d : DType) : 1 ≤ d.nbytes := by
  cases d <;> decide

/-- Int64 wrapping is the identity inside the representable range
(only the nonnegative half is needed here). -/
theorem int64wrap_eq_self (n : Int) (h0 : 0 ≤ n) (h : n < 2 ^ 63) :
    int64wrap n = n := by
  unfold int64wrap
  rw [Int.emod_eq_of_lt (by omega) (by omega)]
  omega

/-- Once the running int64 product is zero it stays zero. -/
theorem numpyProd_foldl_zero (l : List Nat) :
    l.foldl (fun (acc : Int) (x : Nat) => int64wrap (acc * (x : Int))) 0 = 0 := by
  induction l with
  | nil => rfl
  | cons x l IH =>
    simp only [List.foldl_cons, zero_mul]
    rw [show int64wrap 0 = 0 by decide]
    exact IH

/-- A zero extent drives the int64 product to zero, whatever has
accumulated before it (even if it has already wrapped). -/
theorem numpyProd_foldl_of_zero_mem (l : List Nat) (h : 0 ∈ l) :
    ∀ acc : Int, l.foldl (fun (acc : Int) (x : Nat) => int64wrap (acc * (x : Int))) acc = 0 := by
  induction l with
  | nil => cases h
  | cons x l IH =>
    intro acc
    by_cases hx : x = 0
    · subst hx
      simp only [List.foldl_cons, Nat.cast_zero, mul_zero]
      rw [show int64wrap 0 = 0 by decide]
      exact numpyProd_foldl_zero l
    · have hmem : 0 ∈ l := by
        rcases List.mem_cons.mp h with h' | h'
        · exact absurd h'.symm hx
        · exact h'
      simp only [List.foldl_cons]
      exact IH hmem _

/-- With no zero extent and a product that fits below `2^63`, the
stepwise-wrapping int64 fold computes the exact product. -/
theorem numpyProd_foldl_exact :
    ∀ (l : List Nat) (acc : Int), (∀ x ∈ l, x ≠ 0) → 0 ≤ acc →
      acc * (l.prod : Int) < 2 ^ 63 →
      l.foldl (fun (acc : Int) (x : Nat) => int64wrap (acc * (x : Int))) acc
        = acc * (l.prod : Int) := by
  intro l
  induction l with
  | nil => intro acc _ _ _; simp
  | cons x l IH =>
    intro acc hnz hacc hsmall
    have hx : x ≠ 0 := hnz x (List.mem_cons_self x l)
    have hrest : ∀ y ∈ l, y ≠ 0 := fun y hy => hnz y (List.mem_cons_of_mem x hy)
    have hprod1 : 1 ≤ (l.prod : Int) := by
      have : 0 < l.prod := List.prod_pos (fun y hy => Nat.pos_of_ne_zero (hrest y hy))
      exact_mod_cast this
    have hcast : ((x :: l).prod : Int) = (x : Int) * (l.prod : Int) := by
      rw [List.prod_cons]; push_cast; ring
    have haccx : 0 ≤ acc * (x : Int) := mul_nonneg hacc (by positivity)
    have hsmall' : acc * (x : Int) * (l.prod : Int) < 2 ^ 63 := by
      rw [hcast] at hsmall
      calc acc * (x : Int) * (l.prod : Int)
          = acc * ((x : Int) * (l.prod : Int)) := by ring
        _ < 2 ^ 63 := hsmall
    have haccx_small : acc * (x : Int) < 2 ^ 63 := by
      calc acc * (x : Int) = acc * (x : Int) * 1 := by ring
        _ ≤ acc * (x : Int) * (l.prod : Int) := by
            exact mul_le_mul_of_nonneg_left hprod1 haccx
        _ < 2 ^ 63 := hsmall'
    simp only [List.foldl_cons]
    rw [int64wrap_eq_self _ haccx haccx_small,
      IH (acc * (x : Int)) hrest haccx hsmall', hcast]
    ring

/-- The writes of `_send_from_buffer`, concatenated, are exactly the
buffer. -/
theorem _send_from_buffer_flatten (chunk_size : Nat) (hC : 0 < chunk_size)
    (buf : List Nat) :
    (VoxelsNddataCodec._send_from_buffer chunk_size buf).flatten = buf := by
  unfold VoxelsNddataCodec._send_from_buffer
  rw [VoxelsNddataCodec._send_from_buffer_loop_flatten chunk_size hC buf
    buf.length le_rfl]
  simp

/-- The write sizes of `_send_from_buffer` are the requested chunk
sizes. -/
theorem _send_from_buffer_sizes (chunk_size : Nat) (buf : List Nat) :
    (VoxelsNddataCodec._send_from_buffer chunk_size buf).map List.length
      = VoxelsNddataCodec.chunkSizes chunk_size buf.length :=
  VoxelsNddataCodec._send_from_buffer_loop_sizes chunk_size buf buf.length le_rfl

/-- `calculate_buffer_len` computes the exact mathematical byte count
whenever that count stays below `2^63` (no int64 overflow). -/
theorem calculate_buffer_len_exact (dtype : DType) (shape : List Nat)
    (hsmall : shape.prod * dtype.nbytes < 2 ^ 63) :
    VoxelsNddataCodec.calculate_buffer_len dtype shape
      = ((shape.prod * dtype.nbytes : Nat) : Int) := by
  unfold VoxelsNddataCodec.calculate_buffer_len numpyProdInt64
  by_cases hz : (0 : Nat) ∈ shape
  · rw [numpyProd_foldl_of_zero_mem shape hz 1, zero_mul,
      show int64wrap 0 = 0 by decide, List.prod_eq_zero hz]
    simp
  · have hnz : ∀ x ∈ shape, x ≠ 0 := by
      intro x hx hx0
      exact hz (hx0 ▸ hx)
    have hw : 1 ≤ dtype.nbytes := DType.one_le_nbytes dtype
    have hprod_small : (1 : Int) * (shape.prod : Int) < 2 ^ 63 := by
      rw [one_mul]
      have : shape.prod ≤ shape.prod * dtype.nbytes :=
        Nat.le_mul_of_pos_right _ (by omega)
      exact_mod_cast lt_of_le_of_lt this hsmall
    rw [numpyProd_foldl_exact shape 1 hnz (by norm_num) hprod_small, one_mul]
    have hfin : 0 ≤ (shape.prod : Int) * (dtype.nbytes : Int) := by positivity
    rw [int64wrap_eq_self _ hfin (by exact_mod_cast hsmall)]
    push_cast
    ring

open VoxelsNddataCodec in
/-- C1: For every Volume V that is in canonical (first-axis-fastest)
layout and whose element type equals the codec's configured element
type, encoding V with `encode_from_ndarray` and then decoding the
resulting byte stream with `decode_to_ndarray` using V's shape yields a
Volume bit-identical to V. -/
theorem claim_C1_roundtrip (codec_dtype : DType) (V : Volume)
    (writes : List (List Nat))
    (hcanon : V.f_contiguous = true)
    (hdtype : V.dtype = codec_dtype)
    (hlen : V.cdata.length = V.shape.prod * codec_dtype.nbytes)
    (henc : encode_from_ndarray codec_dtype V = .ok writes) :
    decode_to_ndarray codec_dtype ByteStream.read
        { data := writes.flatten, pos := 0 } V.shape
      = .ok (V, { data := writes.flatten, pos := writes.flatten.length }) := by
  obtain ⟨dt, sh, cd, fc⟩ := V
  simp only at hcanon hdtype hlen ⊢
  subst hdtype
  subst hcanon
  unfold encode_from_ndarray _get_buffer at henc
  simp only [ne_eq, not_true_eq_false, reduceIte, if_true, Except.ok.injEq] at henc
  subst henc
  have hflat : (_send_from_buffer STREAM_CHUNK_SIZE cd).flatten = cd :=
    _send_from_buffer_flatten STREAM_CHUNK_SIZE (by decide) cd
  rw [hflat]
  unfold decode_to_ndarray
  rw [_read_to_buffer_exact STREAM_CHUNK_SIZE (by decide)
    (sh.prod * dt.nbytes) { data := cd, pos := 0 } (by simp [hlen])]
  simp only [List.drop_zero, Nat.zero_add]
  rw [← hlen, List.take_length]

open VoxelsNddataCodec in
/-- C1 witness: the round trip at a concrete 1-dimensional uint8 volume
of two bytes. -/
theorem claim_C1_roundtrip_witness :
    decode_to_ndarray DType.uint8 ByteStream.read
        { data := ([[7, 9]] : List (List Nat)).flatten, pos := 0 } [2]
      = .ok (⟨DType.uint8, [2], [7, 9], true⟩,
             { data := ([[7, 9]] : List (List Nat)).flatten,
               pos := ([[7, 9]] : List (List Nat)).flatten.length }) :=
  claim_C1_roundtrip DType.uint8 ⟨DType.uint8, [2], [7, 9], true⟩ [[7, 9]]
    rfl rfl (by decide)
    (by simp [encode_from_ndarray, _get_buffer, _send_from_buffer,
      _send_from_buffer_loop, sliceN, STREAM_CHUNK_SIZE])

open VoxelsNddataCodec in
/-- C4: For every shape and every input stream that yields fewer bytes
than the required total (product of the shape extents times the element
byte width), `decode_to_ndarray` fails with the short-read error and no
Volume is returned (first conjunct, for the in-memory byte stream); and
each per-chunk stream read that returns fewer bytes than requested
makes the transfer fail at once, for an arbitrary stream (second
conjunct).  The whole result is the error: nothing partial escapes. -/
theorem claim_C4_truncated {σ : Type} (codec_dtype : DType)
    (full_roi_shape : List Nat) (data : List Nat)
    (hshort : data.length < full_roi_shape.prod * codec_dtype.nbytes)
    (read : Nat → σ → List Nat × σ) (remaining_bytes : Nat) (s : σ)
    (h0 : 0 < remaining_bytes)
    (hr : (read (min remaining_bytes STREAM_CHUNK_SIZE) s).1.length
        < min remaining_bytes STREAM_CHUNK_SIZE) :
    decode_to_ndarray codec_dtype ByteStream.read
        { data := data, pos := 0 } full_roi_shape
      = .error .truncatedStream
    ∧ _read_to_buffer STREAM_CHUNK_SIZE read remaining_bytes s
      = .error .truncatedStream := by
  constructor
  · unfold decode_to_ndarray
    rw [_read_to_buffer_short STREAM_CHUNK_SIZE (by decide)
      (full_roi_shape.prod * codec_dtype.nbytes) { data := data, pos := 0 }
      (by simp) (by simpa using hshort)]
  · exact _read_to_buffer_short_read STREAM_CHUNK_SIZE read remaining_bytes s h0 hr

open VoxelsNddataCodec in
/-- C4 witness: decoding shape `[3]` of uint8 from a 2-byte stream
fails; a chunk read answering 2 of 5 requested bytes fails. -/
theorem claim_C4_truncated_witness :
    decode_to_ndarray DType.uint8 ByteStream.read
        { data := [1, 2], pos := 0 } [3]
      = .error .truncatedStream
    ∧ _read_to_buffer STREAM_CHUNK_SIZE ByteStream.read 5
        ({ data := [1, 2], pos := 0 } : ByteStream)
      = .error .truncatedStream :=
  claim_C4_truncated DType.uint8 [3] [1, 2] (by decide)
    ByteStream.read 5 { data := [1, 2], pos := 0 } (by decide) (by decide)

open VoxelsNddataCodec in
/-- C5: For every Volume whose element type differs from the codec's
configured element type, `encode_from_ndarray` fails with the type
mismatch error; the dtype assertion sits in `_get_buffer` (second
conjunct), which `encode_from_ndarray` runs before `_send_from_buffer`,
so the failure precedes any write to the output stream — on error the
list of performed writes does not exist. -/
theorem claim_C5_type_mismatch (codec_dtype : DType) (array : Volume)
    (hne : array.dtype ≠ codec_dtype) :
    encode_from_ndarray codec_dtype array = .error .typeMismatch
    ∧ _get_buffer codec_dtype array = .error .typeMismatch := by
  have hg : _get_buffer codec_dtype array = .error .typeMismatch := by
    unfold _get_buffer
    rw [if_pos hne]
  refine ⟨?_, hg⟩
  unfold encode_from_ndarray
  rw [hg]

open VoxelsNddataCodec in
/-- C5 witness: a uint16 volume handed to a uint8 codec. -/
theorem claim_C5_type_mismatch_witness :
    encode_from_ndarray DType.uint8 ⟨DType.uint16, [1], [3, 4], true⟩
      = .error .typeMismatch
    ∧ _get_buffer DType.uint8 ⟨DType.uint16, [1], [3, 4], true⟩
      = .error .typeMismatch :=
  claim_C5_type_mismatch DType.uint8 ⟨DType.uint16, [1], [3, 4], true⟩ (by decide)

open VoxelsNddataCodec in
/-- C2 (code bug): on an open stream view, `read` with the byte-count
argument omitted is claimed to return all bytes from the cursor to the
end of the buffer.  The code instead leaves `nbytes` as `None` (the
`if nbytes is not None` clamp never assigns a default) and then
evaluates `stop = self._position + nbytes`, raising a `TypeError` —
for every open stream and every cursor position. -/
theorem claim_C2_read_none_raises (buf : List Nat) (p : Int) :
    EncodedStream.read { buffer := some buf, position := p } none
      = .error .noneTypeError := rfl

open VoxelsNddataCodec in
/-- C3 (code bug): `getvalue()` is claimed to return the bytes from the
cursor to the end without disturbing the cursor.  It is implemented as
save-position / `self.read()` / restore-position, and the inner
`read()` with no argument raises a `TypeError` (see C2), so `getvalue`
fails on every open stream. -/
theorem claim_C3_getvalue_raises (buf : List Nat) (p : Int) :
    EncodedStream.getvalue { buffer := some buf, position := p }
      = .error .noneTypeError := rfl

open VoxelsNddataCodec in
/-- C6 counterexample: `calculate_buffer_len` does not equal the
product of the extents times the element width for every shape.  At
shape `(2^32, 2^32)` with uint32 elements the int64 product wraps to 0,
while the claimed value `2^64 * 4` is nonzero. -/
theorem claim_C6_counterexample :
    calculate_buffer_len DType.uint32 [4294967296, 4294967296] = 0
    ∧ ((([4294967296, 4294967296] : List Nat).prod
        * DType.nbytes DType.uint32 : Nat) : Int) ≠ 0 := by
  constructor
  · decide
  · decide

set_option maxRecDepth 4000 in
open VoxelsNddataCodec in
/-- C6 (amended): for every shape whose extents fit in int64 and whose
total byte count `prod(shape) * nbytes` stays below `2^63`,
`calculate_buffer_len` equals that product (it is a pure function of
its arguments by construction), and equals the total number of bytes
`encode_from_ndarray` writes for any conforming volume of that shape;
for the concrete shape `(3,150,20,10,4)` with unsigned 32-bit elements
it equals 1,440,000. -/
theorem claim_C6_amended (dtype : DType) (shape : List Nat)
    (hfit : ∀ x ∈ shape, x < 2 ^ 63)
    (hsmall : shape.prod * dtype.nbytes < 2 ^ 63)
    (V : Volume) (writes : List (List Nat))
    (hdtype : V.dtype = dtype) (hshape : V.shape = shape)
    (hcdata : V.cdata.length = shape.prod * dtype.nbytes)
    (henc : encode_from_ndarray dtype V = .ok writes) :
    calculate_buffer_len dtype shape = ((shape.prod * dtype.nbytes : Nat) : Int)
    ∧ (writes.flatten.length : Int) = calculate_buffer_len dtype shape
    ∧ calculate_buffer_len DType.uint32 [3, 150, 20, 10, 4] = 1440000 := by
  have h1 := calculate_buffer_len_exact dtype shape hsmall
  refine ⟨h1, ?_, by decide⟩
  unfold encode_from_ndarray _get_buffer at henc
  rw [if_neg (by simp [hdtype])] at henc
  cases hc : V.f_contiguous <;> rw [hc] at henc <;>
    simp only [Bool.false_eq_true, reduceIte, Except.ok.injEq] at henc <;>
    rw [← henc, _send_from_buffer_flatten STREAM_CHUNK_SIZE (by decide) V.cdata,
      hcdata, h1]

open VoxelsNddataCodec in
/-- C6 witness: the amended statement at a concrete uint8 volume of
shape `[2]`. -/
theorem claim_C6_amended_witness :
    calculate_buffer_len DType.uint8 [2]
        = ((([2] : List Nat).prod * DType.nbytes DType.uint8 : Nat) : Int)
    ∧ ((([[5, 6]] : List (List Nat)).flatten.length : Int)
        = calculate_buffer_len DType.uint8 [2])
    ∧ calculate_buffer_len DType.uint32 [3, 150, 20, 10, 4] = 1440000 :=
  claim_C6_amended DType.uint8 [2] (by decide) (by decide)
    ⟨DType.uint8, [2], [5, 6], true⟩ [[5, 6]] rfl rfl (by decide)
    (by simp [encode_from_ndarray, _get_buffer, _send_from_buffer,
      _send_from_buffer_loop, sliceN, STREAM_CHUNK_SIZE])

namespace VoxelsNddataCodec.EncodedStream

/-- A successful `_read` never changes which buffer the stream owns. -/
theorem _read_preserves_buffer (s : EncodedStream) (nb : Option Int) (pk : Bool)
    (r : List Nat) (s' : EncodedStream)
    (h : s._read nb pk = .ok (r, s')) : s'.buffer = s.buffer := by
  unfold _read at h
  cases hb : s.buffer with
  | none => rw [hb] at h; cases h
  | some buf =>
    rw [hb] at h
    cases nb with
    | none => cases h
    | some n =>
      dsimp only at h
      split at h
      · cases h
        exact hb
      · cases h
        rfl

/-- One client operation either closes the stream (setting the buffer
to `None`) or leaves the owned buffer untouched — including operations
that raise. -/
theorem execOp_buffer (s : EncodedStream) (op : Op) :
    (s.execOp op).buffer = if op = Op.close then none else s.buffer := by
  cases op with
  | read n =>
    simp only [execOp]
    split
    · next r s' heq => exact _read_preserves_buffer s n false r s' heq
    · rfl
  | peek n =>
    simp only [execOp]
    split
    · next r s' heq => exact _read_preserves_buffer s (some n) true r s' heq
    · rfl
  | getvalue =>
    simp only [execOp]
    split
    · next r s' heq =>
      unfold getvalue at heq
      cases hr : s.read none with
      | error e => rw [hr] at heq; cases heq
      | ok p =>
        rw [hr] at heq
        cases heq
        exact _read_preserves_buffer s none false p.1 p.2 hr
    · rfl
  | seek p => rfl
  | tell => rfl
  | close => rfl

/-- Along any trace of operations, the stream has lost its buffer
exactly when some `close` has run. -/
theorem execTrace_buffer_none (ops : List Op) :
    ∀ s : EncodedStream,
      ((s.execTrace ops).buffer = none ↔ (s.buffer = none ∨ Op.close ∈ ops)) := by
  induction ops with
  | nil =>
    intro s
    simp [execTrace]
  | cons op ops IH =>
    intro s
    have hstep : execTrace s (op :: ops) = execTrace (s.execOp op) ops := rfl
    rw [hstep, IH (s.execOp op), execOp_buffer]
    by_cases hop : op = Op.close
    · subst hop
      simp
    · simp only [hop, reduceIte, List.mem_cons]
      constructor
      · rintro (h | h)
        · exact Or.inl h
        · exact Or.inr (Or.inr h)
      · rintro (h | h | h)
        · exact Or.inl h
        · exact absurd h.symm hop
        · exact Or.inr h

end VoxelsNddataCodec.EncodedStream

open VoxelsNddataCodec VoxelsNddataCodec.EncodedStream in
/-- C7: every `read`, `peek` or `getvalue` call on a closed stream view
fails with the use-after-close error (first three conjuncts), and
`closed()` on a freshly created stream run through any sequence of
operations reports true exactly when a `close()` occurs in the
sequence (last conjunct; in particular it is false before any close). -/
theorem claim_C7_close_semantics (s : EncodedStream) (hs : s.buffer = none)
    (nbytes : Option Int) (npeek : Int) (buf : List Nat) (ops : List Op) :
    s.read nbytes = .error .useAfterClose
    ∧ s.peek npeek = .error .useAfterClose
    ∧ s.getvalue = .error .useAfterClose
    ∧ (((mk' buf).execTrace ops).closed = true ↔ Op.close ∈ ops) := by
  have hread : ∀ nb pk, s._read nb pk = (.error .useAfterClose : Except Err (List Nat × EncodedStream)) := by
    intro nb pk
    unfold _read
    rw [hs]
  refine ⟨hread nbytes false, hread (some npeek) true, ?_, ?_⟩
  · unfold getvalue VoxelsNddataCodec.EncodedStream.read
    rw [hread none false]
  · rw [closed, Option.isNone_iff_eq_none, execTrace_buffer_none ops (mk' buf)]
    simp [mk']

open VoxelsNddataCodec VoxelsNddataCodec.EncodedStream in
/-- C7 witness: a closed stream at cursor 2, and the trace
`[seek 1, close, read 1]` on a fresh stream over one byte. -/
theorem claim_C7_close_semantics_witness :
    EncodedStream.read { buffer := none, position := 2 } (some 1)
        = .error .useAfterClose
    ∧ EncodedStream.peek { buffer := none, position := 2 } 3
        = .error .useAfterClose
    ∧ EncodedStream.getvalue { buffer := none, position := 2 }
        = .error .useAfterClose
    ∧ (((mk' [7]).execTrace [Op.seek 1, Op.close, Op.read (some 1)]).closed = true
        ↔ Op.close ∈ [Op.seek 1, Op.close, Op.read (some 1)]) :=
  claim_C7_close_semantics { buffer := none, position := 2 } rfl
    (some 1) 3 [7] [Op.seek 1, Op.close, Op.read (some 1)]

open VoxelsNddataCodec in
/-- C8: for every buffer and every (positive) configured chunk size,
the drain loop performs writes whose sizes are `min(chunk, remaining)`
step by step until remaining reaches 0 (first conjunct) and whose
concatenation, in order, is exactly the buffer — so the writes are
offset-contiguous, strictly sequential, with no reordering, gaps or
overlap (second conjunct).  A 10-byte buffer with chunk size 4 drains
as writes of sizes 4, 4, 2 in that order and no others (last two
conjuncts). -/
theorem claim_C8_drain_chunks (chunk_size : Nat) (hC : 0 < chunk_size)
    (buf : List Nat) :
    (_send_from_buffer chunk_size buf).map List.length
        = chunkSizes chunk_size buf.length
    ∧ (_send_from_buffer chunk_size buf).flatten = buf
    ∧ chunkSizes 4 10 = [4, 4, 2]
    ∧ _send_from_buffer 4 [10, 11, 12, 13, 14, 15, 16, 17, 18, 19]
        = [[10, 11, 12, 13], [14, 15, 16, 17], [18, 19]] := by
  refine ⟨_send_from_buffer_sizes chunk_size buf,
    _send_from_buffer_flatten chunk_size hC buf, ?_, ?_⟩
  · simp [chunkSizes]
  · simp [_send_from_buffer, _send_from_buffer_loop, sliceN]

open VoxelsNddataCodec in
/-- C8 witness: the statement at chunk size 4 and the 10-byte buffer of
the concrete scenario. -/
theorem claim_C8_drain_chunks_witness :
    (_send_from_buffer 4 [10, 11, 12, 13, 14, 15, 16, 17, 18, 19]).map List.length
        = chunkSizes 4 ([10, 11, 12, 13, 14, 15, 16, 17, 18, 19] : List Nat).length
    ∧ (_send_from_buffer 4 [10, 11, 12, 13, 14, 15, 16, 17, 18, 19]).flatten
        = [10, 11, 12, 13, 14, 15, 16, 17, 18, 19]
    ∧ chunkSizes 4 10 = [4, 4, 2]
    ∧ _send_from_buffer 4 [10, 11, 12, 13, 14, 15, 16, 17, 18, 19]
        = [[10, 11, 12, 13], [14, 15, 16, 17], [18, 19]] :=
  claim_C8_drain_chunks 4 (by decide) [10, 11, 12, 13, 14, 15, 16, 17, 18, 19]

/-- The explicit canonicalizing copy of a volume: a fresh array with
the same logical content in first-axis-fastest layout (what
`numpy.empty_like(array, order='F')` followed by element-wise
assignment builds). -/
def Volume.canonicalize (V : Volume) : Volume :=
  { V with f_contiguous := true }

open VoxelsNddataCodec in
/-- C9: encoding a Volume whose memory layout is not first-axis-fastest
produces byte output identical to encoding the same logical data after
an explicit canonicalizing copy (first conjunct); for a Volume already
in canonical layout `_get_buffer` takes the no-copy branch and returns
the volume's own raw bytes — the returned flag `false` records that the
copying branch did not run, i.e. the buffer is borrowed (second
conjunct). -/
theorem claim_C9_layout_normalizer (codec_dtype : DType) (V : Volume)
    (hdtype : V.dtype = codec_dtype) :
    (V.f_contiguous = false →
      encode_from_ndarray codec_dtype V
        = encode_from_ndarray codec_dtype V.canonicalize)
    ∧ (V.f_contiguous = true →
      _get_buffer codec_dtype V = .ok (V.cdata, false)) := by
  constructor
  · intro hnc
    unfold encode_from_ndarray _get_buffer Volume.canonicalize
    simp [hdtype, hnc]
  · intro hc
    unfold _get_buffer
    simp [hdtype, hc]

open VoxelsNddataCodec in
/-- C9 witness: a non-contiguous two-byte uint8 volume. -/
theorem claim_C9_layout_normalizer_witness :
    ((⟨DType.uint8, [2], [5, 6], false⟩ : Volume).f_contiguous = false →
      encode_from_ndarray DType.uint8 ⟨DType.uint8, [2], [5, 6], false⟩
        = encode_from_ndarray DType.uint8
            (Volume.canonicalize ⟨DType.uint8, [2], [5, 6], false⟩))
    ∧ ((⟨DType.uint8, [2], [5, 6], false⟩ : Volume).f_contiguous = true →
      _get_buffer DType.uint8 ⟨DType.uint8, [2], [5, 6], false⟩
        = .ok ([5, 6], false)) :=
  claim_C9_layout_normalizer DType.uint8 ⟨DType.uint8, [2], [5, 6], false⟩ rfl

open VoxelsNddataCodec in
/-- On an open stream, `read` with an explicit byte count follows the
source text exactly: clamp the count to the remaining byte distance,
slice the buffer between the cursor and `cursor + count` with Python
slice semantics, and advance the cursor by the clamped count. -/
theorem EncodedStream_read_some_eq (buf : List Nat) (p n : Int) :
    EncodedStream.read { buffer := some buf, position := p } (some n)
      = .ok (pySlice buf p (p + min ((buf.length : Int) - p) n),
             { buffer := some buf,
               position := p + min ((buf.length : Int) - p) n }) := rfl

open VoxelsNddataCodec VoxelsNddataCodec.EncodedStream in
/-- C10 (implicit behaviour of `seek`): `seek(p)` stores any integer
unvalidated and `tell()` returns it (first conjunct).  If `p` exceeds
the buffer length, `read(n)` returns the empty byte string and clamps
the cursor back to the buffer length (second conjunct).  If `p` is
negative, `read(n)` does not fail (third conjunct) and — for a
negative stop index — returns bytes addressed from the end of the
buffer, per Python negative-index slice semantics (fourth
conjunct). -/
theorem claim_C10_seek_semantics (buf : List Nat) (p n : Int) (hn : 0 ≤ n) :
    ((mk' buf).seek p).tell = p
    ∧ ((buf.length : Int) < p →
        ((mk' buf).seek p).read (some n)
          = .ok ([], { buffer := some buf, position := (buf.length : Int) }))
    ∧ (p < 0 → (((mk' buf).seek p).read (some n)).isOk = true)
    ∧ (p < 0 → -(buf.length : Int) ≤ p → p + n < 0 →
        ((mk' buf).seek p).read (some n)
          = .ok ((buf.drop ((buf.length : Int) + p).toNat).take n.toNat,
                 { buffer := some buf, position := p + n })) := by
  have hL : (0 : Int) ≤ (buf.length : Int) := Int.natCast_nonneg _
  refine ⟨rfl, ?_, ?_, ?_⟩
  · intro hp
    rw [show (mk' buf).seek p = { buffer := some buf, position := p } from rfl,
      EncodedStream_read_some_eq]
    have hmin : min ((buf.length : Int) - p) n = (buf.length : Int) - p := by
      omega
    rw [hmin]
    have hstop : p + ((buf.length : Int) - p) = (buf.length : Int) := by ring
    rw [hstop]
    have hslice : pySlice buf p (buf.length : Int) = [] := by
      simp only [pySlice]
      rw [if_neg (by omega), if_neg (by omega)]
      have h1 : min (max p 0) ((buf.length : Int)) = ((buf.length : Int)) := by
        omega
      have h2 : min (max ((buf.length : Int)) 0) ((buf.length : Int))
          = ((buf.length : Int)) := by omega
      rw [h1, h2]
      simp
    rw [hslice]
  · intro hp
    rw [show (mk' buf).seek p = { buffer := some buf, position := p } from rfl,
      EncodedStream_read_some_eq]
    rfl
  · intro hp hlow hstop
    rw [show (mk' buf).seek p = { buffer := some buf, position := p } from rfl,
      EncodedStream_read_some_eq]
    have hmin : min ((buf.length : Int) - p) n = n := by omega
    rw [hmin]
    have hslice : pySlice buf p (p + n)
        = (buf.drop ((buf.length : Int) + p).toNat).take n.toNat := by
      simp only [pySlice]
      rw [if_pos hp, if_pos hstop]
      have h1 : min (max (p + (buf.length : Int)) 0) ((buf.length : Int))
          = p + (buf.length : Int) := by omega
      have h2 : min (max (p + n + (buf.length : Int)) 0) ((buf.length : Int))
          = p + n + (buf.length : Int) := by omega
      rw [h1, h2]
      have h3 : (p + n + (buf.length : Int)).toNat - (p + (buf.length : Int)).toNat
          = n.toNat := by omega
      have h4 : (p + (buf.length : Int)).toNat = ((buf.length : Int) + p).toNat := by
        omega
      rw [h3, h4]
    rw [hslice]

open VoxelsNddataCodec VoxelsNddataCodec.EncodedStream in
/-- C10 witness: a five-byte buffer; seeking to 9 (past the end) makes
`read 3` return nothing and park the cursor at 5; seeking to −2 makes
`read 1` return the byte at index 3, addressed from the end. -/
theorem claim_C10_seek_semantics_witness :
    (((mk' [20, 21, 22, 23, 24]).seek 9).tell = 9
      ∧ ((([20, 21, 22, 23, 24] : List Nat).length : Int) < 9 →
          ((mk' [20, 21, 22, 23, 24]).seek 9).read (some 3)
            = .ok ([], { buffer := some [20, 21, 22, 23, 24],
                         position := (([20, 21, 22, 23, 24] : List Nat).length : Int) }))
      ∧ ((9 : Int) < 0 →
          (((mk' [20, 21, 22, 23, 24]).seek 9).read (some 3)).isOk = true)
      ∧ ((9 : Int) < 0 → -((([20, 21, 22, 23, 24] : List Nat).length : Int)) ≤ 9 →
          (9 : Int) + 3 < 0 →
          ((mk' [20, 21, 22, 23, 24]).seek 9).read (some 3)
            = .ok (([20, 21, 22, 23, 24].drop
                      (((([20, 21, 22, 23, 24] : List Nat).length : Int) + 9).toNat)).take
                    ((3 : Int).toNat),
                   { buffer := some [20, 21, 22, 23, 24], position := 9 + 3 })))
    ∧ (((mk' [20, 21, 22, 23, 24]).seek (-2)).read (some 1)
        = .ok (([20, 21, 22, 23, 24].drop
                  (((([20, 21, 22, 23, 24] : List Nat).length : Int) + (-2)).toNat)).take
                ((1 : Int).toNat),
               { buffer := some [20, 21, 22, 23, 24], position := (-2) + 1 })) :=
  ⟨claim_C10_seek_semantics [20, 21, 22, 23, 24] 9 3 (by decide),
   ((claim_C10_seek_semantics [20, 21, 22, 23, 24] (-2) 1 (by decide)).2.2.2
     (by decide) (by decide) (by decide))⟩
